import Mathlib

/-!
Shallow embedding of the `ImageHandler` class from `src/image_handler.py`
of the Multiple-Image-Viewer repository, together with theorems settling
the specification claims about it.

Modelling decisions:
* `current_index` is a Python `int`, modelled as `ℤ`.
* A PIL image is modelled by its pixel size, a pair `(width, height) : ℕ × ℕ`;
  a Tk `PhotoImage` bitmap likewise by its size.
* The filesystem / codec collaborator (`os.path.exists` + `Image.open` +
  `img.verify` inside `is_valid_image`, and `Image.open` inside
  `load_current_image`) is abstracted as explicit function parameters:
  `valid : String → Bool` for validation and
  `decode : String → Option (ℕ × ℕ)` for decoding (`none` = the open/decode
  raised an exception, which the Python code catches).
* Python's `/` is exact rational division, modelled in `ℚ`; `int(x)` on a
  non-negative float is `Nat.floor`.  A zero image dimension would make the
  Python division raise `ZeroDivisionError` after `original_image` was
  already assigned; the embedding reproduces that control flow.
* Target width/height are the pixel dimensions supplied by the UI shell,
  modelled as `ℕ`.
-/

namespace MultiImageViewer

/-- State of `ImageHandler` (src/image_handler.py, `__init__`, lines 13–17):
`images` is the list of loaded paths, `current_index` the cursor,
`current_image` the last bitmap produced (modelled by its size), and
`original_image` the last decoded original (modelled by its size). -/
structure ImageHandler where
  images : List String
  current_index : ℤ
  current_image : Option (ℕ × ℕ)
  original_image : Option (ℕ × ℕ)
deriving DecidableEq

/-- The state built by `ImageHandler.__init__`: empty list, cursor 0,
no bitmaps. -/
def initHandler : ImageHandler :=
  { images := [], current_index := 0, current_image := none, original_image := none }

/-- Python list indexing `l[i]` for `i : ℤ`: non-negative indices are
direct, negative indices count from the end, and anything out of range
raises `IndexError`, modelled as `none`. -/
def pyGet (l : List String) (i : ℤ) : Option String :=
  if 0 ≤ i then l[i.toNat]?
  else if 0 ≤ i + l.length then l[(i + l.length).toNat]?
  else none

/-- Embeds `ImageHandler.load_images` (lines 19–40): filter the candidates through
the validator; if any survive, replace `images` with them and reset the
cursor to 0 returning `True`, otherwise return `False` leaving the state
untouched.  The loop over `file_paths` appending each valid path is exactly
`List.filter`. -/
def load_images (valid : String → Bool) (file_paths : List String)
    (s : ImageHandler) : Bool × ImageHandler :=
  let valid_images := file_paths.filter valid
  if valid_images.isEmpty then (false, s)
  else (true, { s with images := valid_images, current_index := 0 })

/-- Embeds `ImageHandler.next_image` (lines 125–139): no-op returning `False` on an
empty list or when the cursor is not strictly before the last position;
otherwise increment the cursor and return `True`. -/
def next_image (s : ImageHandler) : Bool × ImageHandler :=
  if s.images.isEmpty then (false, s)
  else if s.current_index < (s.images.length : ℤ) - 1 then
    (true, { s with current_index := s.current_index + 1 })
  else (false, s)

/-- Embeds `ImageHandler.previous_image` (lines 141–155): no-op returning `False`
on an empty list or when the cursor is not strictly positive; otherwise
decrement the cursor and return `True`. -/
def previous_image (s : ImageHandler) : Bool × ImageHandler :=
  if s.images.isEmpty then (false, s)
  else if 0 < s.current_index then
    (true, { s with current_index := s.current_index - 1 })
  else (false, s)

/-- Embeds `ImageHandler.has_images` (lines 157–159): `len(self.images) > 0`. -/
def has_images (s : ImageHandler) : Bool :=
  decide (0 < s.images.length)

/-- Embeds `ImageHandler.has_next` (lines 161–163):
`self.current_index < len(self.images) - 1` in Python integer arithmetic. -/
def has_next (s : ImageHandler) : Bool :=
  decide (s.current_index < (s.images.length : ℤ) - 1)

/-- Embeds `ImageHandler.has_previous` (lines 165–167): `self.current_index > 0`. -/
def has_previous (s : ImageHandler) : Bool :=
  decide (0 < s.current_index)

/-- Embeds `ImageHandler.get_original_size` (lines 169–173): the size of
`original_image` when one is recorded, else `None`.  Since the stored PIL
image is modelled by its size this is the field itself. -/
def get_original_size (s : ImageHandler) : Option (ℕ × ℕ) :=
  s.original_image

/-- Embeds `ImageHandler.load_current_image` (lines 85–123).  Guard (lines 96–97):
empty list or cursor `≥ len` returns `None` immediately.  Then, inside the
`try` block: index into the list (a raised `IndexError` is caught by the
`except`), decode (`Image.open` failure caught likewise), store a copy of
the decoded original into `original_image`, compute
`ratio = min(target_width / W, target_height / H)` (a zero dimension raises
`ZeroDivisionError`, caught after `original_image` was already updated),
downscale by `ratio` with `int` truncation when `ratio < 1`, else keep the
original size, store and return the resulting bitmap. -/
def load_current_image (decode : String → Option (ℕ × ℕ))
    (target_width target_height : ℕ) (s : ImageHandler) :
    Option (ℕ × ℕ) × ImageHandler :=
  if s.images.isEmpty ∨ (s.images.length : ℤ) ≤ s.current_index then (none, s)
  else
    match pyGet s.images s.current_index with
    | none => (none, s)
    | some image_path =>
      match decode image_path with
      | none => (none, s)
      | some (img_width, img_height) =>
        let s1 := { s with original_image := some (img_width, img_height) }
        if img_width = 0 ∨ img_height = 0 then (none, s1)
        else
          let ratio : ℚ :=
            min ((target_width : ℚ) / (img_width : ℚ))
                ((target_height : ℚ) / (img_height : ℚ))
          let sz : ℕ × ℕ :=
            if ratio < 1 then
              (⌊(img_width : ℚ) * ratio⌋₊, ⌊(img_height : ℚ) * ratio⌋₊)
            else (img_width, img_height)
          (some sz, { s1 with current_image := some sz })

/-- States reachable from the freshly constructed handler by any sequence
of `load_images`, `next_image` and `previous_image` calls. -/
inductive Reachable : ImageHandler → Prop where
  | init : Reachable initHandler
  | load (valid : String → Bool) (ps : List String) {s : ImageHandler} :
      Reachable s → Reachable (load_images valid ps s).2
  | next {s : ImageHandler} : Reachable s → Reachable (next_image s).2
  | prev {s : ImageHandler} : Reachable s → Reachable (previous_image s).2

/-- A concrete decoder for witness statements: path "a" decodes to a 4×4
image, everything else fails to decode. -/
def wdecode : String → Option (ℕ × ℕ) :=
  fun p => if p = "a" then some (4, 4) else none

/-- C2: when at least one candidate is valid, `load_images` returns `True`,
replaces `images` with exactly the valid candidates in their original
relative order (the filtered list), and resets the cursor to 0. -/
theorem load_images_success (valid : String → Bool) (ps : List String)
    (s : ImageHandler) (h : ps.filter valid ≠ []) :
    (load_images valid ps s).1 = true ∧
    (load_images valid ps s).2.images = ps.filter valid ∧
    (load_images valid ps s).2.current_index = 0 := by
  simp [load_images, h]

theorem load_images_success_witness :
    (load_images (fun p => !(p == "x")) ["a", "x", "b"] initHandler).1 = true ∧
    (load_images (fun p => !(p == "x")) ["a", "x", "b"] initHandler).2.images =
      List.filter (fun p => !(p == "x")) ["a", "x", "b"] ∧
    (load_images (fun p => !(p == "x")) ["a", "x", "b"] initHandler).2.current_index = 0 :=
  load_images_success (fun p => !(p == "x")) ["a", "x", "b"] initHandler (by decide)

/-- C3: when no candidate is valid, `load_images` returns `False` and the
whole handler state is left exactly as it was (the call is atomic). -/
theorem load_images_all_invalid (valid : String → Bool) (ps : List String)
    (s : ImageHandler) (h : ps.filter valid = []) :
    load_images valid ps s = (false, s) := by
  simp [load_images, h]

theorem load_images_all_invalid_witness :
    load_images (fun _ => false) ["a", "b"] ⟨["z"], 0, none, some (3, 3)⟩ =
      (false, ⟨["z"], 0, none, some (3, 3)⟩) :=
  load_images_all_invalid (fun _ => false) ["a", "b"] ⟨["z"], 0, none, some (3, 3)⟩
    (by decide)

/-- C9: `load_images` only ever touches the `images` list and the cursor; the
stored original image and bitmap are untouched by any call, so
`get_original_size` answers exactly as before the load. -/
theorem load_images_preserves_bitmaps (valid : String → Bool) (ps : List String)
    (s : ImageHandler) :
    (load_images valid ps s).2.original_image = s.original_image ∧
    (load_images valid ps s).2.current_image = s.current_image ∧
    get_original_size (load_images valid ps s).2 = get_original_size s := by
  by_cases h : (ps.filter valid).isEmpty = true <;>
    simp [load_images, get_original_size, h]

/-- C6: `has_next` answers true exactly when the cursor is strictly below
`len(images) - 1`, and `has_previous` exactly when it is strictly positive. -/
theorem has_next_has_previous_iff (s : ImageHandler) :
    (has_next s = true ↔ s.current_index < (s.images.length : ℤ) - 1) ∧
    (has_previous s = true ↔ 0 < s.current_index) := by
  simp [has_next, has_previous]

theorem has_next_has_previous_iff_witness :
    has_next ⟨["a", "b"], 0, none, none⟩ = true :=
  (has_next_has_previous_iff ⟨["a", "b"], 0, none, none⟩).1.mpr (by decide)

/-- C10: when the list is empty or the cursor sits at or past its length,
`load_current_image` returns `none` at its guard, for every decoder
(so no decode is attempted) and with the state returned untouched. -/
theorem render_out_of_range_noop (decode : String → Option (ℕ × ℕ)) (tw th : ℕ)
    (s : ImageHandler)
    (h : s.images = [] ∨ (s.images.length : ℤ) ≤ s.current_index) :
    load_current_image decode tw th s = (none, s) := by
  have hc : s.images.isEmpty = true ∨ (s.images.length : ℤ) ≤ s.current_index := by
    rcases h with h | h
    · exact Or.inl (by simp [h])
    · exact Or.inr h
  unfold load_current_image
  rw [if_pos hc]

theorem render_out_of_range_noop_witness :
    load_current_image (fun _ => some (8, 8)) 5 5 ⟨[], 0, none, none⟩ =
      (none, ⟨[], 0, none, none⟩) :=
  render_out_of_range_noop (fun _ => some (8, 8)) 5 5 ⟨[], 0, none, none⟩
    (Or.inl rfl)

/-- C5: in every state, a successful `next_image` never moves the cursor past
`len(images) - 1` and a successful `previous_image` never moves it below 0;
at the last position `next_image` is a no-op returning `False`, at position 0
`previous_image` is a no-op returning `False`, and neither wraps around. -/
theorem navigation_no_wraparound (s : ImageHandler) :
    ((next_image s).1 = true →
      (next_image s).2.current_index ≤ (s.images.length : ℤ) - 1) ∧
    ((previous_image s).1 = true → 0 ≤ (previous_image s).2.current_index) ∧
    (s.images ≠ [] → s.current_index = (s.images.length : ℤ) - 1 →
      next_image s = (false, s)) ∧
    (s.current_index = 0 → previous_image s = (false, s)) := by
  refine ⟨?_, ?_, ?_, ?_⟩
  · intro hmv
    by_cases he : s.images.isEmpty = true
    · simp [next_image, he] at hmv
    · by_cases hlt : s.current_index < (s.images.length : ℤ) - 1
      · simp [next_image, he, hlt]
        omega
      · simp [next_image, he, hlt] at hmv
  · intro hmv
    by_cases he : s.images.isEmpty = true
    · simp [previous_image, he] at hmv
    · by_cases hpos : 0 < s.current_index
      · simp [previous_image, he, hpos]
        omega
      · simp [previous_image, he, hpos] at hmv
  · intro hne hlast
    have he : s.images.isEmpty = false := by simp [hne]
    have hnlt : ¬s.current_index < (s.images.length : ℤ) - 1 := by omega
    simp [next_image, he, hnlt]
  · intro h0
    by_cases he : s.images.isEmpty = true
    · simp [previous_image, he]
    · simp [previous_image, he, h0]

theorem navigation_no_wraparound_witness :
    next_image ⟨["a"], 0, none, none⟩ = (false, ⟨["a"], 0, none, none⟩) ∧
    previous_image ⟨["a"], 0, none, none⟩ = (false, ⟨["a"], 0, none, none⟩) :=
  ⟨(navigation_no_wraparound ⟨["a"], 0, none, none⟩).2.2.1 (by decide) (by decide),
   (navigation_no_wraparound ⟨["a"], 0, none, none⟩).2.2.2 rfl⟩

/-- C4: in every state reachable from the initial handler by any sequence of
`load_images`, `next_image` and `previous_image` calls, a non-empty `images`
list has the cursor in range: `0 ≤ current_index < len(images)`. -/
theorem reachable_cursor_in_range {s : ImageHandler} (h : Reachable s)
    (hne : s.images ≠ []) :
    0 ≤ s.current_index ∧ s.current_index < (s.images.length : ℤ) := by
  revert hne
  induction h with
  | init =>
      intro hne
      exact absurd rfl hne
  | load valid ps hr ih =>
      rename_i s'
      intro hne
      by_cases hv : (ps.filter valid).isEmpty = true
      · have hs : (load_images valid ps s').2 = s' := by simp [load_images, hv]
        rw [hs] at hne ⊢
        exact ih hne
      · have hlen : 0 < (ps.filter valid).length := by
          cases hfv : ps.filter valid with
          | nil => rw [hfv] at hv; simp at hv
          | cons a l => simp [hfv]
        simp [load_images, hv]
        exact_mod_cast hlen
  | next hr ih =>
      rename_i s'
      intro hne
      by_cases he : s'.images.isEmpty = true
      · have hs : (next_image s').2 = s' := by simp [next_image, he]
        rw [hs] at hne ⊢
        exact ih hne
      · have hne' : s'.images ≠ [] := by simpa using he
        obtain ⟨h1, h2⟩ := ih hne'
        by_cases hlt : s'.current_index < (s'.images.length : ℤ) - 1
        · simp [next_image, he, hlt]
          omega
        · have hs : (next_image s').2 = s' := by simp [next_image, he, hlt]
          rw [hs]
          exact ⟨h1, h2⟩
  | prev hr ih =>
      rename_i s'
      intro hne
      by_cases he : s'.images.isEmpty = true
      · have hs : (previous_image s').2 = s' := by simp [previous_image, he]
        rw [hs] at hne ⊢
        exact ih hne
      · have hne' : s'.images ≠ [] := by simpa using he
        obtain ⟨h1, h2⟩ := ih hne'
        by_cases hpos : 0 < s'.current_index
        · simp [previous_image, he, hpos]
          omega
        · have hs : (previous_image s').2 = s' := by simp [previous_image, he, hpos]
          rw [hs]
          exact ⟨h1, h2⟩

theorem reachable_cursor_in_range_witness :
    (next_image (load_images (fun _ => true) ["a", "b"] initHandler).2).2.images ≠ [] ∧
    (0 ≤ (next_image (load_images (fun _ => true) ["a", "b"] initHandler).2).2.current_index ∧
      (next_image (load_images (fun _ => true) ["a", "b"] initHandler).2).2.current_index <
        ((next_image (load_images (fun _ => true) ["a", "b"] initHandler).2).2.images.length : ℤ)) :=
  ⟨by decide,
   reachable_cursor_in_range
     (Reachable.next (Reachable.load (fun _ => true) ["a", "b"] Reachable.init))
     (by decide)⟩

/-- C7 (counterexample): `load_current_image` on a path whose decode fails
returns `none`, yet the previously recorded original size `(5, 5)` is still
reported by `get_original_size` — it is not cleared to `none` on failure,
contradicting the claim that a failed render clears the recorded size. -/
theorem render_failure_clears_size_counterexample :
    (load_current_image (fun _ => none) 100 100 ⟨["a"], 0, none, some (5, 5)⟩).1
      = none ∧
    get_original_size
      (load_current_image (fun _ => none) 100 100 ⟨["a"], 0, none, some (5, 5)⟩).2
      = some (5, 5) ∧
    get_original_size
      (load_current_image (fun _ => none) 100 100 ⟨["a"], 0, none, some (5, 5)⟩).2
      ≠ none := by
  refine ⟨by decide, by decide, by decide⟩

/-- C7 (amended): whenever `load_current_image` fails (returns `none`), the
recorded original size is never cleared: if it was set before the call,
`get_original_size` still returns a value afterwards (the previous one, or —
only when the failure happens after a successful decode — the size decoded
during the failing call). -/
theorem render_failure_never_clears_size (decode : String → Option (ℕ × ℕ))
    (tw th : ℕ) (s : ImageHandler)
    (hfail : (load_current_image decode tw th s).1 = none)
    (hsome : s.original_image ≠ none) :
    get_original_size (load_current_image decode tw th s).2 ≠ none := by
  clear hfail
  unfold load_current_image get_original_size
  by_cases hc : s.images.isEmpty = true ∨ (s.images.length : ℤ) ≤ s.current_index
  · rw [if_pos hc]
    exact hsome
  · rw [if_neg hc]
    cases hp : pyGet s.images s.current_index with
    | none => simpa using hsome
    | some p =>
      cases hd : decode p with
      | none => simpa [hd] using hsome
      | some wh =>
        obtain ⟨W, H⟩ := wh
        by_cases hz : W = 0 ∨ H = 0
        · simp [hd, hz]
        · simp [hd, hz]

theorem render_failure_never_clears_size_witness :
    get_original_size
      (load_current_image (fun _ => none) 10 10 ⟨["a"], 0, none, some (5, 5)⟩).2
      ≠ none :=
  render_failure_never_clears_size (fun _ => none) 10 10
    ⟨["a"], 0, none, some (5, 5)⟩ (by decide) (by decide)

/-- C8: `load_current_image` called when the decode of the current path fails
returns `none` and leaves the recorded original size exactly as it was, so
`get_original_size` answers the same before and after the call. -/
theorem render_decode_failure_noop (decode : String → Option (ℕ × ℕ))
    (tw th : ℕ) (s : ImageHandler) (p : String)
    (hguard : ¬(s.images.isEmpty = true ∨ (s.images.length : ℤ) ≤ s.current_index))
    (hpath : pyGet s.images s.current_index = some p)
    (hdec : decode p = none) :
    (load_current_image decode tw th s).1 = none ∧
    get_original_size (load_current_image decode tw th s).2 = get_original_size s := by
  unfold load_current_image
  rw [if_neg hguard, hpath]
  simp [hdec, get_original_size]

theorem render_decode_failure_noop_witness :
    (load_current_image (fun _ => none) 3 3 ⟨["a"], 0, none, some (7, 9)⟩).1 = none ∧
    get_original_size
        (load_current_image (fun _ => none) 3 3 ⟨["a"], 0, none, some (7, 9)⟩).2
      = get_original_size ⟨["a"], 0, none, some (7, 9)⟩ :=
  render_decode_failure_noop (fun _ => none) 3 3 ⟨["a"], 0, none, some (7, 9)⟩
    "a" (by decide) (by decide) rfl

/-- C1: when the current path decodes to an original of positive size
`(W, H)`, `load_current_image tw th` computes
`ratio = min(tw / W, th / H)` exactly; if `ratio < 1` it returns a bitmap of
size `(floor(W * ratio), floor(H * ratio))`, if `ratio ≥ 1` it returns one of
the original size `(W, H)`, and in either case the result is never larger
than the original. -/
theorem render_scaling (decode : String → Option (ℕ × ℕ)) (tw th : ℕ)
    (s : ImageHandler) (p : String) (W H : ℕ)
    (hguard : ¬(s.images.isEmpty = true ∨ (s.images.length : ℤ) ≤ s.current_index))
    (hpath : pyGet s.images s.current_index = some p)
    (hdec : decode p = some (W, H)) (hW : 0 < W) (hH : 0 < H) :
    (min ((tw : ℚ) / (W : ℚ)) ((th : ℚ) / (H : ℚ)) < 1 →
      (load_current_image decode tw th s).1 =
        some (⌊(W : ℚ) * min ((tw : ℚ) / (W : ℚ)) ((th : ℚ) / (H : ℚ))⌋₊,
              ⌊(H : ℚ) * min ((tw : ℚ) / (W : ℚ)) ((th : ℚ) / (H : ℚ))⌋₊)) ∧
    (1 ≤ min ((tw : ℚ) / (W : ℚ)) ((th : ℚ) / (H : ℚ)) →
      (load_current_image decode tw th s).1 = some (W, H)) ∧
    (∀ a b : ℕ, (load_current_image decode tw th s).1 = some (a, b) →
      a ≤ W ∧ b ≤ H) := by
  have hz : ¬(W = 0 ∨ H = 0) := by omega
  have hred : (load_current_image decode tw th s).1 =
      some (if min ((tw : ℚ) / (W : ℚ)) ((th : ℚ) / (H : ℚ)) < 1 then
              (⌊(W : ℚ) * min ((tw : ℚ) / (W : ℚ)) ((th : ℚ) / (H : ℚ))⌋₊,
               ⌊(H : ℚ) * min ((tw : ℚ) / (W : ℚ)) ((th : ℚ) / (H : ℚ))⌋₊)
            else (W, H)) := by
    unfold load_current_image
    rw [if_neg hguard, hpath]
    simp [hdec, hz]
  refine ⟨?_, ?_, ?_⟩
  · intro hr
    rw [hred, if_pos hr]
  · intro hr
    rw [hred, if_neg (not_lt.mpr hr)]
  · intro a b hab
    have hr0 : 0 ≤ min ((tw : ℚ) / (W : ℚ)) ((th : ℚ) / (H : ℚ)) :=
      le_min (div_nonneg (Nat.cast_nonneg tw) (Nat.cast_nonneg W))
        (div_nonneg (Nat.cast_nonneg th) (Nat.cast_nonneg H))
    rw [hred] at hab
    by_cases hr : min ((tw : ℚ) / (W : ℚ)) ((th : ℚ) / (H : ℚ)) < 1
    · rw [if_pos hr] at hab
      simp only [Option.some.injEq, Prod.mk.injEq] at hab
      obtain ⟨ha, hb⟩ := hab
      subst ha
      subst hb
      constructor
      · calc ⌊(W : ℚ) * min ((tw : ℚ) / (W : ℚ)) ((th : ℚ) / (H : ℚ))⌋₊
            ≤ ⌊((W : ℕ) : ℚ)⌋₊ :=
              Nat.floor_mono (mul_le_of_le_one_right (Nat.cast_nonneg W) hr.le)
          _ = W := Nat.floor_natCast W
      · calc ⌊(H : ℚ) * min ((tw : ℚ) / (W : ℚ)) ((th : ℚ) / (H : ℚ))⌋₊
            ≤ ⌊((H : ℕ) : ℚ)⌋₊ :=
              Nat.floor_mono (mul_le_of_le_one_right (Nat.cast_nonneg H) hr.le)
          _ = H := Nat.floor_natCast H
    · rw [if_neg hr] at hab
      simp only [Option.some.injEq, Prod.mk.injEq] at hab
      obtain ⟨ha, hb⟩ := hab
      subst ha
      subst hb
      exact ⟨le_refl W, le_refl H⟩

theorem render_scaling_witness :
    (load_current_image wdecode 2 2 ⟨["a"], 0, none, none⟩).1 = some (2, 2) := by
  have h := (render_scaling wdecode 2 2 ⟨["a"], 0, none, none⟩ "a" 4 4
      (by decide) (by decide) rfl (by norm_num) (by norm_num)).1 (by norm_num)
  rw [h]
  norm_num

end MultiImageViewer
